import Mathlib

/-!
Shallow embedding of `src/app.py` (YouTube channel analytics dashboard).

The program is a linear pipeline: fetch channel/video metadata from a
remote API, derive per-video numeric columns with pandas, plot.  We embed
the `YouTubeAnalytics` class methods (`get_video_ids`,
`get_video_details`, `preprocess`) and the dashboard-level `engagement`
column computation as pure Lean functions.

Modelling conventions:
* A remote call that raises `HttpError` is modelled by an endpoint
  function returning `none`; a successful JSON response is `some _`.
* Python `float` results of true division are modelled by `PFloat`
  (finite rational, `inf`, or `nan`), matching numpy semantics for
  division of nonnegative integers: `a / 0` is `inf` for `a > 0` and
  `nan` for `a = 0`.
* The unbounded `while True` pagination loop is given explicit fuel; the
  theorems supply enough fuel that the cutoff is never reached, so the
  fueled function agrees with the unbounded loop on those inputs.
* A pandas per-row computation that raises (e.g. `len(None)`) is
  modelled with `Option`: `none` is an uncaught exception escaping
  `preprocess`.
-/

namespace YTApp

/-- A raw video record, as built by `get_video_details` (src/app.py
lines 79-88) from a `videos().list` response item.  `title`,
`publishedAt` and `duration` come from `dict.get` with no default, so
they may be `None` (here `none`); `tags` defaults to `[]` at the fetch
boundary but `preprocess` re-checks its shape, so we keep the field
general. -/
inductive TagsField where
  | list (xs : List String)
  | absent
  | nonList
deriving Repr, DecidableEq

structure Video where
  video_id : String
  title : Option String
  publishedAt : Option String
  tags : TagsField
  viewCount : Nat
  likeCount : Nat
  commentCount : Nat
  duration : Option String
deriving Repr, DecidableEq

/-- Python float value produced by pandas column arithmetic. -/
inductive PFloat where
  | finite (q : ℚ)
  | inf
  | nan
deriving Repr, DecidableEq

/-- numpy true division of two nonnegative integer columns:
`a / b` is finite for `b ≠ 0`, `inf` for `a > 0, b = 0`, `nan` for
`a = b = 0`. -/
def pdiv (a b : ℕ) : PFloat :=
  if b = 0 then (if a = 0 then .nan else .inf) else .finite ((a : ℚ) / (b : ℚ))

/-! ## Pagination: `get_video_ids` (src/app.py lines 48-67)

```python
def get_video_ids(self, playlist_id):
    video_ids = []
    next_page_token = None
    while True:
        try:
            request = self.youtube.playlistItems().list(..., pageToken=next_page_token)
            response = request.execute()
            for item in response.get('items', []):
                video_ids.append(item['contentDetails']['videoId'])
            next_page_token = response.get('nextPageToken')
            if not next_page_token:
                break
        except HttpError:
            break
    return video_ids
```

The listing endpoint is a function from the request page token to either
`none` (HttpError) or a response carrying items and an optional next
token.  We also log the sequence of page tokens requested. -/

structure PageResponse where
  items : List String
  nextPageToken : Option Nat
deriving Repr, DecidableEq

/-- The `while True` loop of `get_video_ids`, with fuel bounding the
number of iterations (the loop itself is unbounded; every theorem below
supplies fuel at least the number of iterations actually taken, so the
fuel-0 branch is never reached there).  Returns the collected video ids
and the log of page tokens requested. -/
def get_video_ids_go (endpoint : Option Nat → Option PageResponse) :
    Nat → Option Nat → List String → List (Option Nat) →
    List String × List (Option Nat)
  | 0, _, acc, log => (acc, log)
  | fuel + 1, tok, acc, log =>
    match endpoint tok with
    | none => (acc, log ++ [tok])
    | some resp =>
      match resp.nextPageToken with
      | none => (acc ++ resp.items, log ++ [tok])
      | some t => get_video_ids_go endpoint fuel (some t) (acc ++ resp.items) (log ++ [tok])

/-- `get_video_ids`: start with `next_page_token = None`, no ids
collected. -/
def get_video_ids (endpoint : Option Nat → Option PageResponse) (fuel : Nat) :
    List String × List (Option Nat) :=
  get_video_ids_go endpoint fuel none [] []

/-- One mocked response of the listing endpoint: either an HttpError or
a page of items. -/
inductive PageSpec where
  | err
  | ok (items : List String)
deriving Repr, DecidableEq

/-- Mock listing endpoint over a fixed sequence of per-page responses.
Page tokens are page indices: a request with token `none` is page 0, a
request with token `some i` is page `i`; a successful page `i` carries
`nextPageToken = some (i+1)` exactly when a page `i+1` exists. -/
def mkListingEndpoint (pages : List PageSpec) (tok : Option Nat) :
    Option PageResponse :=
  let idx := tok.getD 0
  match pages[idx]? with
  | none => none
  | some .err => none
  | some (.ok items) =>
    some ⟨items, if idx + 1 < pages.length then some (idx + 1) else none⟩

/-! ## Batching: `get_video_details` (src/app.py lines 69-92)

```python
def get_video_details(self, video_ids):
    all_video_info = []
    for i in range(0, len(video_ids), 50):
        try:
            request = self.youtube.videos().list(..., id=",".join(video_ids[i:i+50]))
            response = request.execute()
            for video in response.get('items', []):
                video_info = { ... }   # lines 79-88, builds a Video
                all_video_info.append(video_info)
        except HttpError:
            continue
    return pd.DataFrame(all_video_info)
```

The batch endpoint maps a batch of ids to `none` (HttpError) or the list
of `Video` records parsed from the response items.  We log the batches
requested.  The `for i in range(0, len, 50)` iteration is recursion on
`take 50` / `drop 50`, fueled by the list length so that the definition
reduces by `rfl` (each iteration consumes at least one element, so
`length` is always enough fuel). -/

def get_video_details_go (fetch : List String → Option (List Video)) :
    Nat → List String → List Video × List (List String)
  | 0, _ => ([], [])
  | _, [] => ([], [])
  | fuel + 1, ids =>
    let batch := ids.take 50
    let rest := get_video_details_go fetch fuel (ids.drop 50)
    match fetch batch with
    | none => (rest.1, batch :: rest.2)
    | some items => (items ++ rest.1, batch :: rest.2)

def get_video_details (fetch : List String → Option (List Video))
    (video_ids : List String) : List Video × List (List String) :=
  get_video_details_go fetch video_ids.length video_ids

/-- The batch partition of an id list: consecutive chunks of 50 (the
last one possibly shorter), exactly the slices `video_ids[i:i+50]` taken
by the loop. -/
def batchesOf_go : Nat → List String → List (List String)
  | 0, _ => []
  | _, [] => []
  | fuel + 1, ids => ids.take 50 :: batchesOf_go fuel (ids.drop 50)

def batchesOf (video_ids : List String) : List (List String) :=
  batchesOf_go video_ids.length video_ids

/-! ## ISO-8601 duration parsing (the `isodate.parse_duration` call at
src/app.py line 96)

`isodate.parse_duration` matches the string against the regex
`P (years Y)? (months M)? (weeks W)? (days D)? (T (hours H)? (minutes M)? (seconds S)?)?`
and, when years and months are both zero, returns a `timedelta` whose
`total_seconds()` is the weighted sum of the components.  When years or
months are nonzero it returns an `isodate.Duration`, which has no
`total_seconds` method, so line 96 raises; a non-matching string raises
`ISO8601Error`.  Both failure modes are `none` here.  We model integer
components (no decimal fractions, no sign), which covers every duration
the YouTube API emits. -/

/-- Read a maximal run of decimal digits, accumulating into `acc`. -/
def readNatAux : List Char → Nat → Nat × List Char
  | [], acc => (acc, [])
  | c :: cs, acc =>
    if c.isDigit then readNatAux cs (10 * acc + (c.toNat - 48)) else (acc, c :: cs)

/-- Read a nonempty run of decimal digits; `none` if the input does not
start with a digit. -/
def readNat : List Char → Option (Nat × List Char)
  | [] => none
  | c :: cs => if c.isDigit then some (readNatAux cs (c.toNat - 48)) else none

/-- One optional component `<digits><designator>`: if the input starts
with a digit run immediately followed by `d`, consume both and return
the value; otherwise the component is absent (value 0, input
unchanged). -/
def parseComp (d : Char) (cs : List Char) : Nat × List Char :=
  match readNat cs with
  | none => (0, cs)
  | some (n, rest) =>
    match rest with
    | c :: rest2 => if c = d then (n, rest2) else (0, cs)
    | [] => (0, cs)

/-- The time part `T (hH)? (mM)? (sS)?`; absent if the input does not
start with `T`. -/
def parseTimePart (cs : List Char) : Nat × Nat × Nat × List Char :=
  match cs with
  | 'T' :: cs1 =>
    let (h, cs2) := parseComp 'H' cs1
    let (m, cs3) := parseComp 'M' cs2
    let (s, cs4) := parseComp 'S' cs3
    (h, m, s, cs4)
  | _ => (0, 0, 0, cs)

/-- `isodate.parse_duration(x).total_seconds()` as used on line 96:
`some` of the total seconds for a parseable duration with zero
years/months, `none` when the call raises. -/
def parse_duration (str : String) : Option ℚ :=
  match str.data with
  | 'P' :: cs0 =>
    let (y, cs1) := parseComp 'Y' cs0
    let (mo, cs2) := parseComp 'M' cs1
    let (w, cs3) := parseComp 'W' cs2
    let (d, cs4) := parseComp 'D' cs3
    let (h, mi, s, cs5) := parseTimePart cs4
    if cs5 = [] ∧ y = 0 ∧ mo = 0 then
      some ((604800 * w + 86400 * d + 3600 * h + 60 * mi + s : ℕ) : ℚ)
    else none
  | _ => none

/-! ## Feature derivation: `preprocess` (src/app.py lines 94-102)

```python
def preprocess(self, df):
    df['publishedAt'] = pd.to_datetime(df['publishedAt'])
    df['durationSecs'] = df['duration'].apply(lambda x: isodate.parse_duration(x).total_seconds() if pd.notnull(x) else 0)
    df['tagsCount'] = df['tags'].apply(lambda x: len(x) if isinstance(x, list) else 0)
    df['titleLength'] = df['title'].apply(lambda x: len(x))
    df['likeRatio'] = df.apply(lambda row: (row['likeCount'] / row['viewCount'] * 1000) if row['viewCount'] else 0, axis=1)
    df['commentRatio'] = df.apply(lambda row: (row['commentCount'] / row['viewCount'] * 1000) if row['viewCount'] else 0, axis=1)
    df['titleSentiment'] = df['title'].apply(lambda x: TextBlob(x).sentiment.polarity)
    return df
```

Each `df[...] = ....apply(...)` computes one whole column before the
next; an exception inside any row lambda aborts `preprocess`.  The
TextBlob polarity scorer is an external lexicon lookup, passed in as an
abstract function `sentiment : String → ℚ` (its range is [-1,1]; nothing
here depends on its values).  `pd.to_datetime` only reparses the
`publishedAt` column in place; no derived column reads it, so we keep
the raw field.  `TextBlob(None)` and `len(None)` raise, hence the
`Option` on those columns. -/

/-- Line 96 row lambda: `isodate.parse_duration(x).total_seconds() if pd.notnull(x) else 0`.
`none` means the row raised. -/
def durationSecsOf : Option String → Option ℚ
  | none => some 0
  | some s => parse_duration s

/-- Line 97 row lambda: `len(x) if isinstance(x, list) else 0`. -/
def tagsCountOf : TagsField → Nat
  | .list xs => xs.length
  | _ => 0

/-- Line 98 row lambda: `len(x)`; raises (`none`) when the title is
`None`. -/
def titleLengthOf : Option String → Option Nat
  | none => none
  | some t => some t.length

/-- Line 99 row lambda: `(likeCount / viewCount * 1000) if viewCount else 0`. -/
def likeRatioOf (v : Video) : ℚ :=
  if v.viewCount ≠ 0 then (v.likeCount : ℚ) / (v.viewCount : ℚ) * 1000 else 0

/-- Line 100 row lambda: `(commentCount / viewCount * 1000) if viewCount else 0`. -/
def commentRatioOf (v : Video) : ℚ :=
  if v.viewCount ≠ 0 then (v.commentCount : ℚ) / (v.viewCount : ℚ) * 1000 else 0

/-- Line 101 row lambda: `TextBlob(x).sentiment.polarity`; raises
(`none`) when the title is `None`. -/
def titleSentimentOf (sentiment : String → ℚ) : Option String → Option ℚ
  | none => none
  | some t => some (sentiment t)

/-- A row of the enriched table: the raw record plus the derived
columns. -/
structure Enriched where
  video : Video
  durationSecs : ℚ
  tagsCount : Nat
  titleLength : Nat
  likeRatio : ℚ
  commentRatio : ℚ
  titleSentiment : ℚ
deriving Repr, DecidableEq

/-- Zip the raw rows with the six computed columns into enriched rows
(pandas stores each column against the same row index). -/
def assemble : List Video → List ℚ → List Nat → List Nat →
    List ℚ → List ℚ → List ℚ → List Enriched
  | v :: vs, d :: ds, tc :: tcs, tl :: tls, lr :: lrs, cr :: crs, s :: ss =>
    ⟨v, d, tc, tl, lr, cr, s⟩ :: assemble vs ds tcs tls lrs crs ss
  | _, _, _, _, _, _, _ => []

/-- One column: apply `f` to every row; `none` as soon as any row
raises (the whole `apply` call propagates the exception). -/
def mapO (f : α → Option β) : List α → Option (List β)
  | [] => some []
  | a :: as =>
    match f a, mapO f as with
    | some b, some bs => some (b :: bs)
    | _, _ => none

/-- `preprocess`, column by column as the source computes it: each
column is one `apply` over all rows; the first raising column aborts
(`none`). -/
def preprocess (sentiment : String → ℚ) (df : List Video) :
    Option (List Enriched) :=
  match mapO (fun v => durationSecsOf v.duration) df with
  | none => none
  | some durCol =>
    let tagsCol := df.map (fun v => tagsCountOf v.tags)
    match mapO (fun v => titleLengthOf v.title) df with
    | none => none
    | some titleLenCol =>
      let likeCol := df.map likeRatioOf
      let commentCol := df.map commentRatioOf
      match mapO (fun v => titleSentimentOf sentiment v.title) df with
      | none => none
      | some sentCol =>
        some (assemble df durCol tagsCol titleLenCol likeCol commentCol sentCol)

/-- The same derivation as a pure per-row function (the spec's
"pure mapping function applied uniformly across the table"); `none`
when the row raises in any column. -/
def enrichRow (sentiment : String → ℚ) (v : Video) : Option Enriched :=
  match durationSecsOf v.duration, v.title with
  | some d, some t =>
    some ⟨v, d, tagsCountOf v.tags, t.length, likeRatioOf v, commentRatioOf v,
      sentiment t⟩
  | _, _ => none

/-! ## Engagement column (src/app.py line 174)

```python
all_videos['engagement'] = (all_videos['likeCount'] + all_videos['commentCount']) / all_videos['viewCount']
```

Unguarded column division: numpy turns a zero `viewCount` into
`inf`/`nan` rather than raising. -/

def engagementOf (v : Video) : PFloat :=
  pdiv (v.likeCount + v.commentCount) v.viewCount

/-! ## Structured ISO-8601 durations, for stating claim C7

A duration with integer week/day/hour/minute/second components, its
standard total-seconds expansion, and its canonical rendering
`P<w>W<d>DT<h>H<m>M<s>S`. -/

structure IsoDur where
  weeks : Nat
  days : Nat
  hours : Nat
  minutes : Nat
  seconds : Nat
deriving Repr, DecidableEq

/-- Standard total-seconds expansion of a duration. -/
def totalSeconds (d : IsoDur) : Nat :=
  604800 * d.weeks + 86400 * d.days + 3600 * d.hours + 60 * d.minutes + d.seconds

/-- The decimal digit character for `d < 10`. -/
def digitChar (d : Nat) : Char := Char.ofNat (48 + d)

/-- Big-endian decimal digit characters of `n`. -/
def digitChars (n : Nat) : List Char :=
  if n = 0 then ['0'] else ((Nat.digits 10 n).reverse).map digitChar

/-- Canonical ISO-8601 rendering with every component present. -/
def renderIso (d : IsoDur) : String :=
  String.mk ('P' :: digitChars d.weeks ++ 'W' :: digitChars d.days ++ 'D' ::
    'T' :: digitChars d.hours ++ 'H' :: digitChars d.minutes ++ 'M' ::
    digitChars d.seconds ++ ['S'])

/-! ## Helper lemmas about `mapO` -/

theorem mapO_cons_some {f : α → Option β} {a : α} {as : List α} {ys : List β}
    (h : mapO f (a :: as) = some ys) :
    ∃ b bs, f a = some b ∧ mapO f as = some bs ∧ ys = b :: bs := by
  cases hfa : f a with
  | none => simp [mapO, hfa] at h
  | some b =>
    cases hm : mapO f as with
    | none => simp [mapO, hfa, hm] at h
    | some bs =>
      refine ⟨b, bs, rfl, rfl, ?_⟩
      simp [mapO, hfa, hm] at h
      exact h.symm

theorem mapO_eq_none_of_mem {f : α → Option β} {a : α} {l : List α}
    (ha : a ∈ l) (hfa : f a = none) : mapO f l = none := by
  induction l with
  | nil => cases ha
  | cons x xs ih =>
    rcases List.mem_cons.mp ha with h | h
    · subst h; simp [mapO, hfa]
    · cases hfx : f x <;> simp [mapO, hfx, ih h]

/-- Concrete sample rows used by the witnesses below. -/
def vSample : Video :=
  ⟨"id0", some "ok", none, .list ["a", "b"], 4, 2, 1, none⟩

def vNoTitle : Video :=
  ⟨"id1", none, none, .list [], 5, 1, 1, none⟩

def vGuard : Video :=
  ⟨"id3", some "ok", none, .list ["a", "b"], 0, 2, 1, none⟩

def eGuard : Enriched :=
  ⟨vGuard, 0, 2, 2, 0, 0, 0⟩

def vZeroViews : Video :=
  ⟨"id2", some "t", none, .list [], 0, 1, 0, none⟩

/-! ## Claim theorems: derived columns -/

/-- C1: the engagement column is `(likeCount + commentCount) / viewCount`
with the division unguarded: on a row with `viewCount = 0` it evaluates
to `inf` or `nan` (never a finite value such as the guarded default 0),
unlike `likeRatio`/`commentRatio`, which are 0 on that row; on a row
with `viewCount ≠ 0` it is the finite quotient. -/
theorem engagement_unguarded_div (v : Video) :
    (v.viewCount = 0 →
      (engagementOf v = PFloat.inf ∨ engagementOf v = PFloat.nan) ∧
      (∀ q : ℚ, engagementOf v ≠ PFloat.finite q) ∧
      likeRatioOf v = 0 ∧ commentRatioOf v = 0) ∧
    (v.viewCount ≠ 0 →
      engagementOf v =
        PFloat.finite (((v.likeCount : ℚ) + (v.commentCount : ℚ)) / (v.viewCount : ℚ))) := by
  constructor
  · intro h
    by_cases hlc : v.likeCount + v.commentCount = 0 <;>
      simp [engagementOf, pdiv, h, hlc, likeRatioOf, commentRatioOf]
  · intro h
    simp only [engagementOf, pdiv, h, if_false, if_neg h]
    push_cast
    rfl

/-- C1 witness: a concrete row with zero views. -/
theorem engagement_unguarded_div_witness :
    ((engagementOf vZeroViews = PFloat.inf ∨ engagementOf vZeroViews = PFloat.nan) ∧
      (∀ q : ℚ, engagementOf vZeroViews ≠ PFloat.finite q) ∧
      likeRatioOf vZeroViews = 0 ∧ commentRatioOf vZeroViews = 0) ∧
    engagementOf vSample =
      PFloat.finite (((vSample.likeCount : ℚ) + (vSample.commentCount : ℚ)) / (vSample.viewCount : ℚ)) :=
  ⟨(engagement_unguarded_div vZeroViews).1 rfl,
   (engagement_unguarded_div vSample).2 (by decide)⟩

/-- C4: `likeRatio` and `commentRatio` are `count / viewCount * 1000`
when `viewCount ≠ 0` and exactly 0 when `viewCount = 0`; both are total
(the division is guarded, so no division error can occur). -/
theorem ratios_guarded (v : Video) :
    (v.viewCount ≠ 0 →
      likeRatioOf v = (v.likeCount : ℚ) / (v.viewCount : ℚ) * 1000 ∧
      commentRatioOf v = (v.commentCount : ℚ) / (v.viewCount : ℚ) * 1000) ∧
    (v.viewCount = 0 → likeRatioOf v = 0 ∧ commentRatioOf v = 0) := by
  constructor
  · intro h; simp [likeRatioOf, commentRatioOf, h]
  · intro h; simp [likeRatioOf, commentRatioOf, h]

/-- C4 witness: a row with nonzero views and a row with zero views. -/
theorem ratios_guarded_witness :
    (likeRatioOf vSample = (vSample.likeCount : ℚ) / (vSample.viewCount : ℚ) * 1000 ∧
      commentRatioOf vSample = (vSample.commentCount : ℚ) / (vSample.viewCount : ℚ) * 1000) ∧
    (likeRatioOf vZeroViews = 0 ∧ commentRatioOf vZeroViews = 0) :=
  ⟨(ratios_guarded vSample).1 (by decide), (ratios_guarded vZeroViews).2 rfl⟩

/-- C8: the tags-count column is the length of the tags list when the
field is a list, and 0 when it is absent or not list-shaped. -/
theorem tagsCount_spec (xs : List String) (t : TagsField) :
    tagsCountOf (.list xs) = xs.length ∧
    (t = .absent ∨ t = .nonList → tagsCountOf t = 0) := by
  refine ⟨rfl, fun h => ?_⟩
  rcases h with h | h <;> subst h <;> rfl

/-- C8 witness. -/
theorem tagsCount_spec_witness :
    tagsCountOf (.list ["a", "b", "c"]) = (["a", "b", "c"] : List String).length ∧
    tagsCountOf .absent = 0 :=
  ⟨(tagsCount_spec ["a", "b", "c"] .absent).1,
   (tagsCount_spec ["a", "b", "c"] .absent).2 (Or.inl rfl)⟩

/-- Every successful run of the column-wise `preprocess` relates rows
one-to-one with the pure per-row derivation `enrichRow`, the raw record
carried unchanged into the enriched row. -/
theorem preprocess_forall2 {s : String → ℚ} : ∀ {df : List Video} {out : List Enriched},
    preprocess s df = some out →
    List.Forall₂ (fun v e => enrichRow s v = some e ∧ e.video = v) df out := by
  intro df
  induction df with
  | nil =>
    intro out h
    simp [preprocess, mapO, assemble] at h
    simp [← h]
  | cons v vs ih =>
    intro out h
    cases hD : mapO (fun w => durationSecsOf w.duration) (v :: vs) with
    | none => simp [preprocess, hD] at h
    | some dcol =>
      cases hT : mapO (fun w => titleLengthOf w.title) (v :: vs) with
      | none => simp [preprocess, hD, hT] at h
      | some tcol =>
        cases hS : mapO (fun w => titleSentimentOf s w.title) (v :: vs) with
        | none => simp [preprocess, hD, hT, hS] at h
        | some scol =>
          obtain ⟨d, ds, hd, hds, rfl⟩ := mapO_cons_some hD
          obtain ⟨tl, tls, htl, htls, rfl⟩ := mapO_cons_some hT
          obtain ⟨sc, scs, hsc, hscs, rfl⟩ := mapO_cons_some hS
          cases ht : v.title with
          | none => rw [ht] at htl; simp [titleLengthOf] at htl
          | some t =>
            rw [ht] at htl hsc
            simp only [titleLengthOf, Option.some.injEq] at htl
            simp only [titleSentimentOf, Option.some.injEq] at hsc
            simp only [preprocess, hD, hT, hS, List.map_cons, assemble,
              Option.some.injEq] at h
            subst h
            refine List.Forall₂.cons ⟨?_, rfl⟩ ?_
            · simp [enrichRow, hd, ht, htl, hsc]
            · refine ih ?_
              simp [preprocess, hds, htls, hscs]

/-- C9: feature derivation is pure and deterministic: equal input
tables give equal outputs, and on success the enriched table relates
row-for-row to the input by the pure mapping `enrichRow`, each output
row carrying its single source record unchanged. -/
theorem preprocess_pure_rowwise (s : String → ℚ) (df dg : List Video)
    (out : List Enriched) :
    (df = dg → preprocess s df = preprocess s dg) ∧
    (preprocess s df = some out →
      out.length = df.length ∧
      List.Forall₂ (fun v e => enrichRow s v = some e ∧ e.video = v) df out) := by
  refine ⟨fun h => by rw [h], fun h => ?_⟩
  have h2 := preprocess_forall2 h
  exact ⟨h2.length_eq.symm, h2⟩

/-- C9 witness: a concrete one-row table. -/
theorem preprocess_pure_rowwise_witness :
    preprocess (fun _ => 0) [vGuard] = preprocess (fun _ => 0) [vGuard] ∧
    (([eGuard] : List Enriched).length = ([vGuard] : List Video).length ∧
      List.Forall₂ (fun v e => enrichRow (fun _ => 0) v = some e ∧ e.video = v)
        [vGuard] [eGuard]) :=
  ⟨(preprocess_pure_rowwise (fun _ => 0) [vGuard] [vGuard] [eGuard]).1 rfl,
   (preprocess_pure_rowwise (fun _ => 0) [vGuard] [vGuard] [eGuard]).2 (by decide)⟩

/-- C10: `preprocess` requires every row's title to be present: the
`titleLength` and `titleSentiment` columns apply `len` and the scorer
to the title unguarded, so a table containing a row with a missing
title makes `preprocess` raise (`none`) rather than default — while the
fetch layer can produce exactly such rows, since line 81 reads the
title with an unguarded `get`. -/
theorem preprocess_title_unguarded (s : String → ℚ) (df : List Video) (v : Video)
    (hv : v ∈ df) (ht : v.title = none) :
    preprocess s df = none ∧
    ∃ fetch ids, ∃ w ∈ (get_video_details fetch ids).1, w.title = none := by
  constructor
  · cases hD : mapO (fun w => durationSecsOf w.duration) df with
    | none => simp [preprocess, hD]
    | some dcol =>
      have hT : mapO (fun w => titleLengthOf w.title) df = none :=
        mapO_eq_none_of_mem hv (by simp [ht, titleLengthOf])
      simp [preprocess, hD, hT]
  · exact ⟨fun _ => some [vNoTitle], ["x"], vNoTitle, by decide, rfl⟩

/-- C10 witness: a concrete one-row table with a missing title. -/
theorem preprocess_title_unguarded_witness :
    preprocess (fun _ => 0) [vNoTitle] = none ∧
    ∃ fetch ids, ∃ w ∈ (get_video_details fetch ids).1, w.title = none :=
  preprocess_title_unguarded (fun _ => 0) [vNoTitle] vNoTitle (by decide) rfl

/-! ## Batching lemmas -/

/-- Per-batch request sizes, as a function of the id-list length only:
`min 50 n` then recurse on `n - 50`. -/
def chunkLens : Nat → Nat → List Nat
  | 0, _ => []
  | _, 0 => []
  | fuel + 1, n => min 50 n :: chunkLens fuel (n - 50)

theorem batchesOf_go_join {fuel : Nat} : ∀ {ids : List String}, ids.length ≤ fuel →
    (batchesOf_go fuel ids).flatten = ids := by
  induction fuel with
  | zero =>
    intro ids h
    rw [List.length_eq_zero.mp (Nat.le_zero.mp h)]
    rfl
  | succ fuel ih =>
    intro ids h
    cases ids with
    | nil => rfl
    | cons x xs =>
      have hlen : ((x :: xs).drop 50).length ≤ fuel := by
        rw [List.length_drop]
        omega
      simp only [batchesOf_go, List.flatten_cons, ih hlen, List.take_append_drop]

theorem batchesOf_go_le50 {fuel : Nat} : ∀ {ids b : List String},
    b ∈ batchesOf_go fuel ids → b.length ≤ 50 := by
  induction fuel with
  | zero => intro ids b h; simp [batchesOf_go] at h
  | succ fuel ih =>
    intro ids b h
    cases ids with
    | nil => cases h
    | cons x xs =>
      rcases List.mem_cons.mp h with h | h
      · subst h
        rw [List.length_take]
        exact min_le_left _ _
      · exact ih h

theorem batchesOf_go_map_length {fuel : Nat} : ∀ {ids : List String},
    ids.length ≤ fuel →
    (batchesOf_go fuel ids).map List.length = chunkLens fuel ids.length := by
  induction fuel with
  | zero =>
    intro ids h
    rw [List.length_eq_zero.mp (Nat.le_zero.mp h)]
    rfl
  | succ fuel ih =>
    intro ids h
    cases ids with
    | nil => rfl
    | cons x xs =>
      have hlen : ((x :: xs).drop 50).length ≤ fuel := by
        rw [List.length_drop]
        omega
      simp only [batchesOf_go, List.map_cons, List.length_take, ih hlen,
        List.length_drop, chunkLens, List.length_cons]

/-- The fueled batching loop, characterized: the request log is the
batch partition and the returned records are the per-batch results
concatenated in batch order, a failed batch contributing nothing. -/
theorem get_video_details_go_spec (fetch : List String → Option (List Video))
    {fuel : Nat} : ∀ {ids : List String}, ids.length ≤ fuel →
    (get_video_details_go fetch fuel ids).2 = batchesOf_go fuel ids ∧
    (get_video_details_go fetch fuel ids).1 =
      ((batchesOf_go fuel ids).map (fun b => (fetch b).getD [])).flatten := by
  induction fuel with
  | zero =>
    intro ids h
    rw [List.length_eq_zero.mp (Nat.le_zero.mp h)]
    exact ⟨rfl, rfl⟩
  | succ fuel ih =>
    intro ids h
    cases ids with
    | nil => exact ⟨rfl, rfl⟩
    | cons x xs =>
      have hlen : ((x :: xs).drop 50).length ≤ fuel := by
        rw [List.length_drop]
        omega
      obtain ⟨ih2, ih1⟩ := ih hlen
      cases hf : fetch ((x :: xs).take 50) with
      | none =>
        constructor
        · simp only [get_video_details_go, hf, batchesOf_go, ih2]
        · simp only [get_video_details_go, hf, batchesOf_go, List.map_cons,
            List.flatten_cons, ih1, Option.getD_none, List.nil_append]
      | some items =>
        constructor
        · simp only [get_video_details_go, hf, batchesOf_go, ih2]
        · simp only [get_video_details_go, hf, batchesOf_go, List.map_cons,
            List.flatten_cons, ih1, Option.getD_some]

/-! ## Claim theorems: batching -/

/-- C5: `get_video_details` partitions its input into consecutive
batches of at most 50 ids whose concatenation is the input, issues
exactly one request per batch (the request log is exactly the batch
partition), with 120 ids exactly 3 requests of sizes 50, 50, 20, and
returns the per-batch results concatenated in batch order. -/
theorem get_video_details_batches (fetch : List String → Option (List Video))
    (ids : List String) :
    (get_video_details fetch ids).2 = batchesOf ids ∧
    (batchesOf ids).flatten = ids ∧
    (∀ b ∈ batchesOf ids, b.length ≤ 50) ∧
    (ids.length = 120 → (batchesOf ids).map List.length = [50, 50, 20]) ∧
    (get_video_details fetch ids).1 =
      ((batchesOf ids).map (fun b => (fetch b).getD [])).flatten := by
  obtain ⟨h2, h1⟩ := get_video_details_go_spec fetch (le_rfl : ids.length ≤ ids.length)
  refine ⟨h2, batchesOf_go_join le_rfl, fun b hb => batchesOf_go_le50 hb, ?_, h1⟩
  intro h120
  rw [batchesOf, batchesOf_go_map_length le_rfl, h120]
  rfl

/-- C5 witness: 120 concrete ids, all batches succeeding. -/
theorem get_video_details_batches_witness :
    (get_video_details (fun _ => some []) (List.replicate 120 "v")).2 =
      batchesOf (List.replicate 120 "v") ∧
    (batchesOf (List.replicate 120 "v")).map List.length = [50, 50, 20] :=
  ⟨(get_video_details_batches (fun _ => some []) (List.replicate 120 "v")).1,
   (get_video_details_batches (fun _ => some []) (List.replicate 120 "v")).2.2.2.1 rfl⟩

/-- C6: when the request for one batch fails (`none` models the caught
`HttpError`), `get_video_details` still returns — no exception escapes —
that batch contributes no records, and the result is exactly the
concatenation, in batch order, of the records of the non-failing
batches. -/
theorem get_video_details_skips_failed (fetch : List String → Option (List Video))
    (ids : List String) (b : List String)
    (hb : b ∈ batchesOf ids) (hfail : fetch b = none) :
    (get_video_details fetch ids).1 =
      ((batchesOf ids).map (fun c => (fetch c).getD [])).flatten ∧
    (fetch b).getD [] = [] := by
  refine ⟨(get_video_details_go_spec fetch le_rfl).2, ?_⟩
  rw [hfail]
  rfl

/-- C6 witness: 120 concrete ids where the first two batches fail and
the last succeeds; only the last batch's record survives. -/
theorem get_video_details_skips_failed_witness :
    ((get_video_details (fun c => if c = List.replicate 20 "v" then some [vSample] else none)
        (List.replicate 120 "v")).1 =
      ((batchesOf (List.replicate 120 "v")).map
        (fun c => ((if c = List.replicate 20 "v" then some [vSample] else none :
            Option (List Video))).getD [])).flatten ∧
      ((if (List.replicate 50 "v" : List String) = List.replicate 20 "v" then some [vSample] else none :
          Option (List Video))).getD [] = []) ∧
    (get_video_details (fun c => if c = List.replicate 20 "v" then some [vSample] else none)
        (List.replicate 120 "v")).1 = [vSample] := by
  refine ⟨get_video_details_skips_failed _ _ (List.replicate 50 "v") ?_ ?_, ?_⟩
  · decide
  · decide
  · decide

/-! ## Pagination lemmas -/

/-- Peeling one cursor off the expected request log. -/
theorem map_some_range_succ (a m : Nat) :
    (List.range (m + 1)).map (fun k => some (a + k)) =
      some a :: (List.range m).map (fun k => some (a + 1 + k)) := by
  rw [List.range_succ_eq_map, List.map_cons, List.map_map]
  refine congrArg₂ _ (by simp) ?_
  exact List.map_congr_left fun k _ => by
    simp only [Function.comp_apply, Option.some.injEq]; omega

theorem get_video_ids_go_ok (pages : List (List String)) :
    ∀ (fuel i : Nat) (tok : Option Nat) (acc : List String) (log : List (Option Nat)),
      tok.getD 0 = i → i < pages.length → pages.length - i ≤ fuel →
      get_video_ids_go (mkListingEndpoint (pages.map PageSpec.ok)) fuel tok acc log =
        (acc ++ (pages.drop i).flatten,
         log ++ tok :: (List.range (pages.length - i - 1)).map (fun k => some (i + 1 + k))) := by
  intro fuel
  induction fuel with
  | zero => intro i tok acc log hi hlt hfuel; omega
  | succ fuel ih =>
    intro i tok acc log hi hlt hfuel
    have hresp : mkListingEndpoint (pages.map PageSpec.ok) tok =
        some ⟨pages[i], if i + 1 < pages.length then some (i + 1) else none⟩ := by
      simp [mkListingEndpoint, hi, List.getElem?_map, List.getElem?_eq_getElem hlt]
    rw [get_video_ids_go, hresp]
    by_cases h2 : i + 1 < pages.length
    · simp only [h2, if_true]
      rw [ih (i + 1) (some (i + 1)) (acc ++ pages[i]) (log ++ [tok]) rfl h2 (by omega)]
      have hn : pages.length - i - 1 = (pages.length - (i + 1) - 1) + 1 := by omega
      rw [hn, map_some_range_succ, List.drop_eq_getElem_cons hlt, List.flatten_cons,
        ← List.append_assoc]
      simp [List.append_assoc]
    · have hend : i + 1 = pages.length := by omega
      simp only [h2, if_false]
      have hd : pages.drop i = [pages[i]] := by
        rw [List.drop_eq_getElem_cons hlt, hend, List.drop_length]
      have hr : pages.length - i - 1 = 0 := by omega
      rw [hd, hr]
      simp

/-- Walking a sequence whose first `pre.length` pages succeed and whose
next page errors, from page `i ≤ pre.length`: the loop collects the
remaining successful pages and stops at the error, having also issued
(and logged) the failing request. -/
theorem get_video_ids_go_err (pre : List (List String)) (suffix : List PageSpec) :
    ∀ (fuel i : Nat) (tok : Option Nat) (acc : List String) (log : List (Option Nat)),
      tok.getD 0 = i → i ≤ pre.length → pre.length - i < fuel →
      get_video_ids_go (mkListingEndpoint (pre.map PageSpec.ok ++ PageSpec.err :: suffix))
          fuel tok acc log =
        (acc ++ (pre.drop i).flatten,
         log ++ tok :: (List.range (pre.length - i)).map (fun k => some (i + 1 + k))) := by
  intro fuel
  induction fuel with
  | zero => intro i tok acc log hi hle hfuel; omega
  | succ fuel ih =>
    intro i tok acc log hi hle hfuel
    by_cases h2 : i < pre.length
    · have hresp : mkListingEndpoint (pre.map PageSpec.ok ++ PageSpec.err :: suffix) tok =
          some ⟨pre[i], some (i + 1)⟩ := by
        have hget : (pre.map PageSpec.ok ++ PageSpec.err :: suffix)[i]? =
            some (PageSpec.ok pre[i]) := by
          rw [List.getElem?_append_left (by simpa using h2), List.getElem?_map,
            List.getElem?_eq_getElem h2]
          rfl
        have hlen : i + 1 < (pre.map PageSpec.ok ++ PageSpec.err :: suffix).length := by
          simp only [List.length_append, List.length_map, List.length_cons]
          omega
        simp only [mkListingEndpoint, hi, hget, if_pos hlen]
      rw [get_video_ids_go, hresp]
      show get_video_ids_go (mkListingEndpoint (pre.map PageSpec.ok ++ PageSpec.err :: suffix))
          fuel (some (i + 1)) (acc ++ pre[i]) (log ++ [tok]) = _
      rw [ih (i + 1) (some (i + 1)) (acc ++ pre[i]) (log ++ [tok]) rfl (by omega) (by omega)]
      have hn : pre.length - i = (pre.length - (i + 1)) + 1 := by omega
      rw [hn, map_some_range_succ, List.drop_eq_getElem_cons h2, List.flatten_cons,
        ← List.append_assoc]
      simp [List.append_assoc]
    · have hend : i = pre.length := by omega
      have hresp : mkListingEndpoint (pre.map PageSpec.ok ++ PageSpec.err :: suffix) tok =
          none := by
        have hget : (pre.map PageSpec.ok ++ PageSpec.err :: suffix)[i]? =
            some PageSpec.err := by
          rw [hend, ← List.length_map pre PageSpec.ok,
            List.getElem?_append_right le_rfl]
          simp
        simp only [mkListingEndpoint, hi, hget]
      rw [get_video_ids_go, hresp, hend]
      simp

/-! ## Claim theorems: pagination -/

/-- C2: over a mocked listing endpoint serving `N` full pages of 50
followed by one partial page with no further cursor, `get_video_ids`
returns exactly the concatenation of all pages' ids in page order —
without duplicates whenever the served ids are distinct — and its
request log shows one request per page, each made with the cursor the
previous response returned (`none`, then `1, 2, …`), stopping at the
cursorless page. -/
theorem get_video_ids_pagination (full : List (List String)) (lastPage : List String)
    (hfull : ∀ p ∈ full, p.length = 50) (hlast : lastPage.length < 50) :
    (get_video_ids (mkListingEndpoint ((full ++ [lastPage]).map PageSpec.ok))
        (full ++ [lastPage]).length).1 = (full ++ [lastPage]).flatten ∧
    ((full ++ [lastPage]).flatten.Nodup →
      (get_video_ids (mkListingEndpoint ((full ++ [lastPage]).map PageSpec.ok))
          (full ++ [lastPage]).length).1.Nodup) ∧
    (get_video_ids (mkListingEndpoint ((full ++ [lastPage]).map PageSpec.ok))
        (full ++ [lastPage]).length).2 =
      none :: (List.range ((full ++ [lastPage]).length - 1)).map (fun k => some (k + 1)) := by
  have hpos : 0 < (full ++ [lastPage]).length := by simp
  have h := get_video_ids_go_ok (full ++ [lastPage]) ((full ++ [lastPage]).length)
    0 none [] [] rfl hpos (by omega)
  rw [get_video_ids, h]
  refine ⟨by simp, fun hnd => by simpa using hnd, ?_⟩
  simp only [List.nil_append, Nat.sub_zero]
  exact congrArg _ (List.map_congr_left fun k _ => by
    simp only [Option.some.injEq]; omega)

/-- C2 witness: one full page of 50 distinct ids plus a partial page of
3 distinct ids. -/
theorem get_video_ids_pagination_witness :
    (get_video_ids
        (mkListingEndpoint (([(List.range 50).map toString] ++ [["a", "b", "c"]]).map PageSpec.ok))
        ([(List.range 50).map toString] ++ [["a", "b", "c"]]).length).1 =
      ([(List.range 50).map toString] ++ [["a", "b", "c"]]).flatten ∧
    (get_video_ids
        (mkListingEndpoint (([(List.range 50).map toString] ++ [["a", "b", "c"]]).map PageSpec.ok))
        ([(List.range 50).map toString] ++ [["a", "b", "c"]]).length).1.Nodup ∧
    (get_video_ids
        (mkListingEndpoint (([(List.range 50).map toString] ++ [["a", "b", "c"]]).map PageSpec.ok))
        ([(List.range 50).map toString] ++ [["a", "b", "c"]]).length).2 =
      none :: (List.range (([(List.range 50).map toString] ++ [["a", "b", "c"]]).length - 1)).map
        (fun k => some (k + 1)) := by
  have h := get_video_ids_pagination [(List.range 50).map toString] ["a", "b", "c"]
    (by decide) (by decide)
  exact ⟨h.1, h.2.1 (by decide), h.2.2⟩

/-- C3: when the listing endpoint serves `k-1 ≥ 1` successful pages and
then fails with a remote error on page `k`, `get_video_ids` does not
raise: it returns exactly the ids of pages `1 … k-1`, its request log
showing the `k` requests made (including the failing one). -/
theorem get_video_ids_partial_on_error (pre : List (List String)) (suffix : List PageSpec)
    (hpre : pre ≠ []) :
    (get_video_ids (mkListingEndpoint (pre.map PageSpec.ok ++ PageSpec.err :: suffix))
        (pre.length + 1)).1 = pre.flatten ∧
    (get_video_ids (mkListingEndpoint (pre.map PageSpec.ok ++ PageSpec.err :: suffix))
        (pre.length + 1)).2 =
      none :: (List.range pre.length).map (fun k => some (k + 1)) := by
  have h := get_video_ids_go_err pre suffix (pre.length + 1) 0 none [] [] rfl
    (Nat.zero_le _) (by omega)
  rw [get_video_ids, h]
  refine ⟨by simp, ?_⟩
  simp only [List.nil_append, Nat.sub_zero]
  exact congrArg _ (List.map_congr_left fun k _ => by
    simp only [Option.some.injEq]; omega)

/-- C3 witness: one successful page, then an error on page 2 (with a
further page behind it that is never reached). -/
theorem get_video_ids_partial_on_error_witness :
    (get_video_ids
        (mkListingEndpoint ([["a", "b"]].map PageSpec.ok ++ PageSpec.err :: [PageSpec.ok ["c"]]))
        (([["a", "b"]] : List (List String)).length + 1)).1 = [["a", "b"]].flatten ∧
    (get_video_ids
        (mkListingEndpoint ([["a", "b"]].map PageSpec.ok ++ PageSpec.err :: [PageSpec.ok ["c"]]))
        (([["a", "b"]] : List (List String)).length + 1)).2 =
      none :: (List.range ([["a", "b"]] : List (List String)).length).map (fun k => some (k + 1)) :=
  get_video_ids_partial_on_error [["a", "b"]] [PageSpec.ok ["c"]] (by decide)

/-! ## Duration-parser lemmas -/

/-- The remaining input does not start with a digit (so a digit run
read before it stops exactly there). -/
def headNotDigit : List Char → Prop
  | [] => True
  | c :: _ => c.isDigit = false

theorem digitChar_isDigit {d : Nat} (h : d < 10) : (digitChar d).isDigit = true := by
  interval_cases d <;> decide

theorem digitChar_toNat {d : Nat} (h : d < 10) : (digitChar d).toNat - 48 = d := by
  interval_cases d <;> decide

theorem readNatAux_digits : ∀ (L : List Nat), (∀ x ∈ L, x < 10) →
    ∀ (rest : List Char), headNotDigit rest → ∀ (acc : Nat),
    readNatAux (L.map digitChar ++ rest) acc =
      (L.foldl (fun a x => 10 * a + x) acc, rest)
  | [], _, rest, hrest, acc => by
    cases rest with
    | nil => rfl
    | cons c cs =>
      have hc : c.isDigit = false := hrest
      simp [readNatAux, hc]
  | d :: L2, hL, rest, hrest, acc => by
    have hd : d < 10 := hL d (List.mem_cons_self d L2)
    simp only [List.map_cons, List.cons_append, readNatAux, digitChar_isDigit hd,
      if_true, digitChar_toNat hd, List.foldl_cons]
    exact readNatAux_digits L2 (fun x hx => hL x (List.mem_cons_of_mem d hx)) rest hrest _

theorem foldr_digits_val : ∀ (L : List Nat),
    L.foldr (fun x a => 10 * a + x) 0 = Nat.ofDigits 10 L
  | [] => by simp [Nat.ofDigits]
  | x :: L => by simp [List.foldr_cons, foldr_digits_val L, Nat.ofDigits_cons]; omega

theorem foldl_digits_reverse (n : Nat) :
    ((Nat.digits 10 n).reverse).foldl (fun a x => 10 * a + x) 0 = n := by
  rw [List.foldl_reverse, foldr_digits_val, Nat.ofDigits_digits]

theorem readNat_digitChars (n : Nat) (rest : List Char) (hrest : headNotDigit rest) :
    readNat (digitChars n ++ rest) = some (n, rest) := by
  by_cases h0 : n = 0
  · subst h0
    have hdz : digitChars 0 ++ rest = '0' :: rest := by simp [digitChars]
    rw [hdz, readNat]
    have h1 : readNatAux (([] : List Nat).map digitChar ++ rest) 0 = (0, rest) :=
      readNatAux_digits [] (by simp) rest hrest 0
    simp only [List.map_nil, List.nil_append] at h1
    simp [h1, show ('0'.toNat - 48) = 0 from by decide]
  · cases hR : (Nat.digits 10 n).reverse with
    | nil =>
      exact absurd (by simpa using hR) (Nat.digits_ne_nil_iff_ne_zero.mpr h0)
    | cons d L2 =>
      have hmem : ∀ x ∈ d :: L2, x < 10 := by
        intro x hx
        have hx2 : x ∈ Nat.digits 10 n := by
          rw [← List.mem_reverse, hR]
          exact hx
        exact Nat.digits_lt_base (by norm_num) hx2
      have hd : d < 10 := hmem d (List.mem_cons_self d L2)
      have hdc : digitChars n = digitChar d :: L2.map digitChar := by
        rw [digitChars, if_neg h0, hR, List.map_cons]
      rw [hdc, List.cons_append, readNat]
      simp only [digitChar_isDigit hd, if_true, digitChar_toNat hd]
      rw [readNatAux_digits L2 (fun x hx => hmem x (List.mem_cons_of_mem d hx)) rest hrest d]
      have hval : L2.foldl (fun a x => 10 * a + x) d = n := by
        have := foldl_digits_reverse n
        rw [hR, List.foldl_cons] at this
        simpa using this
      rw [hval]

theorem parseComp_present (d : Char) (hd : d.isDigit = false) (n : Nat)
    (rest : List Char) :
    parseComp d (digitChars n ++ d :: rest) = (n, rest) := by
  have hr := readNat_digitChars n (d :: rest) hd
  simp [parseComp, hr]

theorem parseComp_absent (d c : Char) (hc : c.isDigit = false) (hne : c ≠ d)
    (n : Nat) (rest : List Char) :
    parseComp d (digitChars n ++ c :: rest) = (0, digitChars n ++ c :: rest) := by
  have hr := readNat_digitChars n (c :: rest) hc
  simp [parseComp, hr, hne]

/-- Round trip: parsing the canonical rendering of a structured
duration yields its standard total-seconds expansion. -/
theorem parse_renderIso (dur : IsoDur) :
    parse_duration (renderIso dur) = some ((totalSeconds dur : ℕ) : ℚ) := by
  obtain ⟨w, d, h, mi, s⟩ := dur
  have hdata : (renderIso ⟨w, d, h, mi, s⟩).data =
      'P' :: (digitChars w ++ 'W' :: (digitChars d ++ 'D' :: 'T' ::
        (digitChars h ++ 'H' :: (digitChars mi ++ 'M' ::
          (digitChars s ++ ['S']))))) := by
    simp [renderIso]
  simp only [parse_duration, hdata,
    parseComp_absent 'Y' 'W' (by decide) (by decide),
    parseComp_absent 'M' 'W' (by decide) (by decide),
    parseComp_present 'W' (by decide),
    parseComp_present 'D' (by decide),
    parseTimePart,
    parseComp_present 'H' (by decide),
    parseComp_present 'M' (by decide),
    parseComp_present 'S' (by decide)]
  simp [totalSeconds]

/-! ## Claim theorem: duration seconds -/

/-- C7: the `durationSecs` row computation yields the standard
total-seconds expansion of the ISO-8601 duration string when the field
is present (for every structured duration, parsing its rendering gives
the weighted component sum; in particular `PT1H2M3S` gives 3723), and
yields 0 when the field is absent. -/
theorem durationSecs_spec (dur : IsoDur) (x : Option String) :
    (x = some (renderIso dur) →
      durationSecsOf x = some ((totalSeconds dur : ℕ) : ℚ)) ∧
    (x = none → durationSecsOf x = some 0) ∧
    parse_duration "PT1H2M3S" = some 3723 := by
  refine ⟨fun hx => ?_, fun hx => ?_, by decide⟩
  · subst hx
    exact parse_renderIso dur
  · subst hx
    rfl

/-- C7 witness: the duration `P0W0DT1H2M3S` (1 hour, 2 minutes,
3 seconds) and the absent field. -/
theorem durationSecs_spec_witness :
    durationSecsOf (some (renderIso ⟨0, 0, 1, 2, 3⟩)) =
      some ((totalSeconds ⟨0, 0, 1, 2, 3⟩ : ℕ) : ℚ) ∧
    durationSecsOf none = some 0 :=
  ⟨(durationSecs_spec ⟨0, 0, 1, 2, 3⟩ (some (renderIso ⟨0, 0, 1, 2, 3⟩))).1 rfl,
   (durationSecs_spec ⟨0, 0, 1, 2, 3⟩ none).2.1 rfl⟩

end YTApp
